import Mathlib

/-!
# Verification of the nanobrowser vision / teaching / transport core

Shallow embedding of the pure core of the repository:

* `GroundingParser` (grounding/parser.ts, re-exported through vision/types.ts):
  bounding-box / point / ref extraction, coordinate conversion, IoU;
* `TeachingService` (teaching/service.ts): element detection from model text,
  annotation, session registration, element matching;
* `TeachingStorage` (teaching/storage.ts): URL hashing and page-memory store;
* `NativeComputerProvider` (computer native provider): request/response
  correlation state machine.

JavaScript numbers are modelled as exact rationals `ℚ`; `Math.round` is
`jsRound` (round half towards +∞); a JS division whose denominator is zero
(`NaN`) is modelled as `none` in an `Option ℚ` result.  Strings are `List Char`.
-/

namespace Nanobrowser

/-- `BoundingBox{x1,y1,x2,y2}` from vision/types.ts, coordinates as exact
rationals. -/
structure BBox where
  x1 : ℚ
  y1 : ℚ
  x2 : ℚ
  y2 : ℚ
  deriving DecidableEq, Repr

/-- `Point{x,y}` from vision/types.ts. -/
structure PointQ where
  x : ℚ
  y : ℚ
  deriving DecidableEq, Repr

/-- The spec's well-formedness invariant on a box: `x1 ≤ x2 ∧ y1 ≤ y2`. -/
def BBox.WellFormed (b : BBox) : Prop := b.x1 ≤ b.x2 ∧ b.y1 ≤ b.y2

instance (b : BBox) : Decidable b.WellFormed := by
  unfold BBox.WellFormed; infer_instance

/-- Area `(x2 - x1) * (y2 - y1)` of a box, as computed inline by
`calculateIoU` for `box1Area` / `box2Area`. -/
def BBox.area (b : BBox) : ℚ := (b.x2 - b.x1) * (b.y2 - b.y1)

/-- JS `Math.round`: round half towards positive infinity,
`Math.round x = ⌊x + 1/2⌋`. -/
def jsRound (q : ℚ) : ℚ := (⌊q + 1/2⌋ : ℤ)

/-- `GroundingParser.normalizedToPixel`:
`Math.round((normalized / 1000) * dimension)`. -/
def normalizedToPixel (normalized dimension : ℚ) : ℚ :=
  jsRound (normalized / 1000 * dimension)

/-- `GroundingParser.pixelToNormalized`:
`Math.round((pixel / dimension) * 1000)`. -/
def pixelToNormalized (pixel dimension : ℚ) : ℚ :=
  jsRound (pixel / dimension * 1000)

/-- `GroundingParser.pixelBoxToNormalized`: componentwise
`pixelToNormalized`. -/
def pixelBoxToNormalized (bbox : BBox) (width height : ℚ) : BBox :=
  { x1 := pixelToNormalized bbox.x1 width
    y1 := pixelToNormalized bbox.y1 height
    x2 := pixelToNormalized bbox.x2 width
    y2 := pixelToNormalized bbox.y2 height }

/-- `GroundingParser.calculateIoU`.  The result is `none` exactly when the
JS computation divides zero by zero (both areas and the intersection are
zero), which yields `NaN` in JavaScript; otherwise `some` of the exact
rational value of `intersectionArea / unionArea` (or `0` on the early
disjointness return). -/
def calculateIoU (box1 box2 : BBox) : Option ℚ :=
  let x1 := max box1.x1 box2.x1
  let y1 := max box1.y1 box2.y1
  let x2 := min box1.x2 box2.x2
  let y2 := min box1.y2 box2.y2
  if x2 < x1 ∨ y2 < y1 then
    some 0
  else
    let intersectionArea := (x2 - x1) * (y2 - y1)
    let box1Area := (box1.x2 - box1.x1) * (box1.y2 - box1.y1)
    let box2Area := (box2.x2 - box2.x1) * (box2.y2 - box2.y1)
    let unionArea := box1Area + box2Area - intersectionArea
    if unionArea = 0 then none else some (intersectionArea / unionArea)

/-! ## Grounding parser (grounding/parser.ts)

The source walks the text with three global regexes
(`/<ref>(.*?)<\/ref>/g`, the `<box>` regex, the `<point>` regex), each
producing its matches leftmost-first and non-overlapping.  We embed each
regex as a matcher that recognises the pattern at the head of the text and
a scanner that applies the matcher at each position, skipping one character
when it fails — which is exactly the `exec` loop semantics for these
patterns (none of them can backtrack to a different successful shape at a
given start position, see `numParse`). -/

/-- Kind tag of a parsed grounding format (`'ref' | 'box' | 'point'`). -/
inductive GKind where
  | ref
  | box
  | point
  deriving DecidableEq, Repr

/-- `GroundingFormat` from vision/types.ts.  `content` is `match[0]` for
box/point matches and the captured inner text `match[1]` for refs, exactly
as in `parseGrounding`. -/
structure GroundingFormat where
  type : GKind
  content : List Char
  bbox : Option BBox := none
  point : Option PointQ := none
  refId : Option (List Char) := none
  deriving DecidableEq, Repr

/-- Match a literal pattern at the head of the text, returning the rest. -/
def lit (pat l : List Char) : Option (List Char) :=
  if pat.isPrefixOf l then some (l.drop pat.length) else none

/-- Value of a digit string, as `parseFloat` reads the integral or
fractional digits (`"012" ↦ 12`). -/
def natVal (ds : List Char) : ℕ :=
  ds.foldl (fun a c => 10 * a + (c.toNat - 48)) 0

/-- Match `\d+(?:\.\d+)?` at the head of the text and return its
`parseFloat` value.  The regex takes the maximal digit run, and takes the
fractional part exactly when a dot followed by a digit comes next (if the
dot is not followed by a digit the engine backtracks to the integral-only
parse, leaving the dot unconsumed — which then fails the following literal,
as in the regex). -/
def numParse (l : List Char) : Option (ℚ × List Char) :=
  if (l.takeWhile Char.isDigit).isEmpty then none
  else
    match l.drop (l.takeWhile Char.isDigit).length with
    | '.' :: r2 =>
      if (r2.takeWhile Char.isDigit).isEmpty then
        some ((natVal (l.takeWhile Char.isDigit) : ℚ),
          l.drop (l.takeWhile Char.isDigit).length)
      else
        some ((natVal (l.takeWhile Char.isDigit) : ℚ) +
            (natVal (r2.takeWhile Char.isDigit) : ℚ) /
              (10 : ℚ) ^ (r2.takeWhile Char.isDigit).length,
          r2.drop (r2.takeWhile Char.isDigit).length)
    | _ =>
      some ((natVal (l.takeWhile Char.isDigit) : ℚ),
        l.drop (l.takeWhile Char.isDigit).length)

/-- JS line terminators, which `.` in a regex does not match. -/
def isLineTerm (c : Char) : Bool :=
  c == '\n' || c == '\r' || c.val == 0x2028 || c.val == 0x2029

/-- Lazy body of `<ref>(.*?)</ref>`: the shortest run of non-line-terminator
characters followed by the literal `</ref>`; returns the captured run and
the rest of the text. -/
def refContent : List Char → Option (List Char × List Char)
  | [] => none
  | c :: r =>
    if "</ref>".toList.isPrefixOf (c :: r) then some ([], (c :: r).drop 6)
    else if isLineTerm c then none
    else
      match refContent r with
      | some (cs, rest) => some (c :: cs, rest)
      | none => none

/-- Match `/<ref>(.*?)<\/ref>/` at the head of the text. -/
def matchRefAt (l : List Char) : Option (GroundingFormat × List Char) :=
  Option.bind (lit "<ref>".toList l) fun r1 =>
  Option.bind (refContent r1) fun p =>
  some ({ type := .ref, content := p.1, refId := some p.1 }, p.2)

/-- Match the `<box>(x1,y1),(x2,y2)</box>` regex at the head of the text. -/
def matchBoxAt (l : List Char) : Option (GroundingFormat × List Char) :=
  Option.bind (lit "<box>(".toList l) fun r1 =>
  Option.bind (numParse r1) fun p1 =>
  Option.bind (lit ",".toList p1.2) fun r3 =>
  Option.bind (numParse r3) fun p2 =>
  Option.bind (lit "),(".toList p2.2) fun r5 =>
  Option.bind (numParse r5) fun p3 =>
  Option.bind (lit ",".toList p3.2) fun r7 =>
  Option.bind (numParse r7) fun p4 =>
  Option.bind (lit ")</box>".toList p4.2) fun r9 =>
  some ({ type := .box, content := l.take (l.length - r9.length),
          bbox := some ⟨p1.1, p2.1, p3.1, p4.1⟩ }, r9)

/-- Match the `<point>(x,y)</point>` regex at the head of the text. -/
def matchPointAt (l : List Char) : Option (GroundingFormat × List Char) :=
  Option.bind (lit "<point>(".toList l) fun r1 =>
  Option.bind (numParse r1) fun p1 =>
  Option.bind (lit ",".toList p1.2) fun r3 =>
  Option.bind (numParse r3) fun p2 =>
  Option.bind (lit ")</point>".toList p2.2) fun r5 =>
  some ({ type := .point, content := l.take (l.length - r5.length),
          point := some ⟨p1.1, p2.1⟩ }, r5)

/-- One step of the `regex.exec` loop: on a match emit the result and
continue after it, on failure step one character (`k` is the continuation
of the loop). -/
def scanBody {α : Type} (m : List Char → Option (α × List Char))
    (k : List Char → List α) (l : List Char) : List α :=
  match m l with
  | some ar => ar.1 :: k ar.2
  | none =>
    match l with
    | [] => []
    | _ :: r => k r

/-- Fuelled scanner: apply the matcher at each position; on success emit the
result and continue after the match, on failure step one character.  With
`fuel ≥ length` this is the `regex.exec` loop. -/
def scanA {α : Type} (m : List Char → Option (α × List Char)) :
    Nat → List Char → List α
  | 0, _ => []
  | fuel + 1, l => scanBody m (scanA m fuel) l

/-- Run a matcher's `exec` loop over a whole text. -/
def scanAll {α : Type} (m : List Char → Option (α × List Char)) (l : List Char) : List α :=
  scanA m l.length l

/-- `GroundingParser.parseGrounding`: the three regex loops run one after
the other, so all ref formats are pushed first, then all box formats, then
all point formats. -/
def parseGrounding (text : List Char) : List GroundingFormat :=
  scanAll matchRefAt text ++ scanAll matchBoxAt text ++ scanAll matchPointAt text

/-- `GroundingParser.extractBoundingBoxes`:
`parseGrounding(text).filter(f => f.type === 'box' && f.bbox).map(f => f.bbox!)`. -/
def extractBoundingBoxes (text : List Char) : List BBox :=
  ((parseGrounding text).filter
      (fun f => f.type == GKind.box && f.bbox.isSome)).filterMap (fun f => f.bbox)

/-! ## Teaching service (teaching/service.ts) -/

/-- `UIElement` from teaching/types.ts. -/
structure UIElement where
  id : ℕ
  bbox : BBox
  normalizedBbox : BBox
  autoDescription : List Char
  userDescription : Option (List Char) := none
  elementType : Option (List Char) := none
  confidence : ℚ
  timestamp : ℤ
  deriving DecidableEq, Repr

/-- `ElementMatchResult` from teaching/types.ts. -/
structure ElementMatchResult where
  element : UIElement
  similarity : ℚ
  matched : Bool
  deriving DecidableEq, Repr

/-- `TeachingSession` from teaching/types.ts; `userAnnotations` is the
`Map<number, string>` as an association list. -/
structure TeachingSession where
  tabId : ℕ
  url : List Char
  screenshot : List Char
  detectedElements : List UIElement
  userAnnotations : List (ℕ × List Char)
  isActive : Bool
  deriving DecidableEq, Repr

/-- `Map.set` / keyed upsert: replace the value at the key, or append the
binding if the key is absent. -/
def setA {κ β : Type} [DecidableEq κ] : List (κ × β) → κ → β → List (κ × β)
  | [], k, v => [(k, v)]
  | (k0, v0) :: rest, k, v =>
    if k0 = k then (k, v) :: rest else (k0, v0) :: setA rest k v

/-- `Map.get` on an association list. -/
def lookupA {κ β : Type} [DecidableEq κ] : List (κ × β) → κ → Option β
  | [], _ => none
  | (k0, v0) :: rest, k => if k0 = k then some v0 else lookupA rest k

/-- `Array.prototype.find` followed by an in-place mutation: rewrite only
the first element satisfying the predicate. -/
def updateFirst {α : Type} (p : α → Bool) (f : α → α) : List α → List α
  | [] => []
  | a :: rest => if p a then f a :: rest else a :: updateFirst p f rest

/-- JS whitespace (`\s`, and what `String.prototype.trim` strips):
space, tab, the line terminators, vertical tab, form feed, NBSP, BOM. -/
def isJsSpace (c : Char) : Bool :=
  c == ' ' || c == '\t' || c == '\n' || c == '\r' ||
  c.val == 0x0b || c.val == 0x0c || c.val == 0xa0 || c.val == 0xfeff ||
  c.val == 0x2028 || c.val == 0x2029

/-- `String.prototype.trim`. -/
def jsTrim (l : List Char) : List Char :=
  ((l.dropWhile isJsSpace).reverse.dropWhile isJsSpace).reverse

/-- `String.prototype.includes`: the pattern occurs as a contiguous
substring. -/
def containsSub (pat : List Char) : List Char → Bool
  | [] => pat.isEmpty
  | c :: r => pat.isPrefixOf (c :: r) || containsSub pat r

/-- `String.prototype.split('\n')`. -/
def splitOnNl : List Char → List (List Char)
  | [] => [[]]
  | c :: r =>
    match splitOnNl r with
    | [] => [[c]]
    | h :: t => if c = '\n' then [] :: h :: t else (c :: h) :: t

/-- Backtracking tail of the description regex `\]\s*(.+)$` after the `]`:
`\s*` starts greedy at `k` consumed whitespace characters and backs off
until `(.+)$` — a nonempty run of non-line-terminators reaching the end —
succeeds. -/
def tcAux (rest : List Char) : ℕ → Option (List Char)
  | 0 => if !rest.isEmpty && rest.all (fun c => !isLineTerm c) then some rest else none
  | k + 1 =>
    let cap := rest.drop (k + 1)
    if !cap.isEmpty && cap.all (fun c => !isLineTerm c) then some cap
    else tcAux rest k

/-- `line.match(/\]\s*(.+)$/)`: the first `]` (left to right) after which
the rest of the line matches `\s*(.+)$`; returns the `(.+)` capture. -/
def jsDescMatch : List Char → Option (List Char)
  | [] => none
  | c :: r =>
    if c = ']' then
      match tcAux r (r.takeWhile isJsSpace).length with
      | some cap => some cap
      | none => jsDescMatch r
    else jsDescMatch r

/-- Pure core of `TeachingService.detectElements` on the text of a
successful model response: extract the boxes, keep the lines containing
`<box>`, pair box `index` with line `index` (empty line when missing), read
the description after a `]` (trimmed) or synthesize `Element ${index+1}`,
and build the `UIElement`s with sequential ids from 1, the normalized box
for the given viewport, confidence 0.8 and the current timestamp. -/
def detectElementsCore (text : List Char) (vw vh : ℚ) (now : ℤ) : List UIElement :=
  let boxes := extractBoundingBoxes text
  let lines := (splitOnNl text).filter (fun line => containsSub "<box>".toList line)
  boxes.enum.map fun (index, bbox) =>
    let line := lines.getD index []
    let description :=
      match jsDescMatch line with
      | some cap => jsTrim cap
      | none => "Element ".toList ++ (Nat.repr (index + 1)).toList
    { id := index + 1
      bbox := bbox
      normalizedBbox := pixelBoxToNormalized bbox vw vh
      autoDescription := description
      confidence := 4/5
      timestamp := now }

/-- `TeachingService.annotateElement` as a transformer of the
`activeSessions` registry: missing session throws; otherwise the annotation
is recorded in `userAnnotations` and the first element with the given id
(if any) gets its `userDescription` overwritten.  An unknown id is not
checked. -/
def annotateElement (sessions : List (ℕ × TeachingSession)) (tabId elementId : ℕ)
    (description : List Char) : Except (List Char) (List (ℕ × TeachingSession)) :=
  match lookupA sessions tabId with
  | none => .error "No active teaching session".toList
  | some session =>
    let session' :=
      { session with
        userAnnotations := setA session.userAnnotations elementId description
        detectedElements :=
          updateFirst (fun e => e.id == elementId)
            (fun e => { e with userDescription := some description })
            session.detectedElements }
    .ok (setA sessions tabId session')

/-- `TeachingService.startTeaching` with the two awaited effects passed in
as oracles: the screenshot capture result and the detection step (which
itself covers the model call and viewport query).  Returns the call's
result together with the `activeSessions` registry after the call; the
session is registered only after both steps succeed. -/
def startTeaching (sessions : List (ℕ × TeachingSession)) (tabId : ℕ) (url : List Char)
    (captureResult : Except (List Char) (List Char))
    (detectResult : List Char → Except (List Char) (List UIElement)) :
    Except (List Char) TeachingSession × List (ℕ × TeachingSession) :=
  match captureResult with
  | .error e => (.error e, sessions)
  | .ok screenshot =>
    match detectResult screenshot with
    | .error e => (.error e, sessions)
    | .ok detectedElements =>
      let session : TeachingSession :=
        { tabId := tabId, url := url, screenshot := screenshot
          detectedElements := detectedElements, userAnnotations := [], isActive := true }
      (.ok session, setA sessions tabId session)

/-- Loop body of `TeachingService.matchElements`: replace the best match
when the IoU strictly improves on it, recomputing `matched` as `iou > 0.5`.
A `NaN` IoU (`none`) never satisfies `iou > bestMatch.similarity` in JS, so
it leaves the best match unchanged. -/
def bestStep (remembered : UIElement) (bestMatch : ElementMatchResult)
    (current : UIElement) : ElementMatchResult :=
  match calculateIoU current.normalizedBbox remembered.normalizedBbox with
  | none => bestMatch
  | some iou =>
    if bestMatch.similarity < iou then
      { element := remembered, similarity := iou, matched := decide ((1 : ℚ)/2 < iou) }
    else bestMatch

/-- The inner loop of `matchElements` for one remembered element, starting
from `{element, similarity: 0, matched: false}`. -/
def matchOne (currentElements : List UIElement) (remembered : UIElement) :
    ElementMatchResult :=
  currentElements.foldl (bestStep remembered)
    { element := remembered, similarity := 0, matched := false }

/-- `TeachingService.matchElements`: one result per remembered element, in
order. -/
def matchElements (currentElements rememberedElements : List UIElement) :
    List ElementMatchResult :=
  rememberedElements.map (matchOne currentElements)

/-- Spec-side formulation of the similarity: fold of `max` over the defined
IoU values of the remembered element against each current element
(`0` when the current list is empty; `NaN` IoUs are skipped). -/
def iouStep (remembered : UIElement) (acc : ℚ) (current : UIElement) : ℚ :=
  match calculateIoU current.normalizedBbox remembered.normalizedBbox with
  | none => acc
  | some iou => max acc iou

/-- Spec-side maximum IoU of a remembered element against the current
elements. -/
def maxIoU (currentElements : List UIElement) (remembered : UIElement) : ℚ :=
  currentElements.foldl (iouStep remembered) 0

/-! ## Teaching storage (teaching/storage.ts) -/

/-- `PageMemory` from teaching/types.ts (viewport inlined). -/
structure PageMemory where
  url : List Char
  urlHash : List Char
  domain : List Char
  elements : List UIElement
  screenshotHash : List Char
  viewportWidth : ℚ
  viewportHeight : ℚ
  lastUpdated : ℤ
  deriving DecidableEq, Repr

/-- JS `ToInt32` coercion (what `<<` and `&` apply to their result). -/
def toInt32 (z : ℤ) : ℤ := (z + 2 ^ 31) % 2 ^ 32 - 2 ^ 31

/-- The loop of `TeachingStorage.simpleHash`:
`hash = (hash << 5) - hash + charCodeAt(i); hash = hash & hash` — the shift
wraps to a 32-bit integer, the sum is exact, and the self-`&` coerces back
to a 32-bit integer. -/
def simpleHashInt (str : List Char) : ℤ :=
  str.foldl (fun hash c => toInt32 (toInt32 (hash * 32) - hash + c.toNat)) 0

/-- Base-36 digit, as in `Number.prototype.toString(36)`. -/
def b36digit (n : ℕ) : Char :=
  if n < 10 then Char.ofNat (48 + n) else Char.ofNat (87 + n)

/-- Base-36 rendering helper; the fuel (32) covers every 32-bit value. -/
def b36Aux : ℕ → ℕ → List Char
  | 0, _ => []
  | f + 1, n => if n < 36 then [b36digit n] else b36Aux f (n / 36) ++ [b36digit (n % 36)]

/-- `Number.prototype.toString(36)` on a non-negative integer. -/
def natToB36 (n : ℕ) : List Char := b36Aux 32 n

/-- `TeachingStorage.simpleHash`: `Math.abs(hash).toString(36)`. -/
def simpleHash (str : List Char) : List Char := natToB36 (simpleHashInt str).natAbs

/-- Models the platform WHATWG `URL` constructor on simple absolute URLs of
the shape `scheme://host[/path][?query][#fragment]`, returning
`(protocol, hostname, pathname)` with `protocol = scheme ++ ":"` and an
empty path normalized to `/`; `none` models the constructor throwing. -/
def parseURLModel (url : List Char) : Option (List Char × List Char × List Char) :=
  if (url.takeWhile (fun c => c != ':')).isEmpty then none
  else
    match url.drop (url.takeWhile (fun c => c != ':')).length with
    | ':' :: '/' :: '/' :: tail =>
      if (tail.takeWhile (fun c => !(c == '/' || c == '?' || c == '#'))).isEmpty then none
      else
        some ((url.takeWhile (fun c => c != ':')) ++ [':'],
          tail.takeWhile (fun c => !(c == '/' || c == '?' || c == '#')),
          if ((tail.drop
                (tail.takeWhile (fun c => !(c == '/' || c == '?' || c == '#'))).length).takeWhile
              (fun c => !(c == '?' || c == '#'))).isEmpty then
            "/".toList
          else
            (tail.drop
              (tail.takeWhile (fun c => !(c == '/' || c == '?' || c == '#'))).length).takeWhile
              (fun c => !(c == '?' || c == '#')))
    | _ => none

/-- `TeachingStorage.generateUrlHash`: hash of
`protocol + "//" + hostname + pathname`, falling back to hashing the raw
URL string when URL parsing throws. -/
def generateUrlHash (url : List Char) : List Char :=
  match parseURLModel url with
  | some (protocol, host, pathname) =>
    simpleHash (protocol ++ "//".toList ++ host ++ pathname)
  | none => simpleHash url

/-- `'ui_memory_'` storage key namespace. -/
def STORAGE_KEY_PREFIX : List Char := "ui_memory_".toList

/-- `TeachingStorage.savePageMemory` against a `chrome.storage.local`
surface modelled as a keyed association list: a plain keyed set. -/
def savePageMemory (store : List (List Char × PageMemory)) (memory : PageMemory) :
    List (List Char × PageMemory) :=
  setA store (STORAGE_KEY_PREFIX ++ memory.urlHash) memory

/-- Lookup part of `TeachingStorage.getPageMemory`. -/
def getPageMemoryFrom (store : List (List Char × PageMemory)) (url : List Char) :
    Option PageMemory :=
  lookupA store (STORAGE_KEY_PREFIX ++ generateUrlHash url)

/-! ## Native transport correlator (NativeComputerProvider) -/

/-- Settlement of a pending transport request: the promise resolves with
the peer's `data` or rejects with an error message. -/
inductive NPOutcome (δ : Type) where
  | resolved (data : δ)
  | rejected (err : List Char)
  deriving DecidableEq, Repr

/-- Correlator state of `NativeComputerProvider`: whether `port` is
non-null, the `messageId` counter, and the ids in `pendingMessages`. -/
structure NPState where
  portConnected : Bool
  messageId : ℕ
  pending : List ℕ
  deriving DecidableEq, Repr

/-- `sendNativeMessage`: fails when the port is gone; otherwise allocates
the next id, registers it as pending, and posts the message. -/
def sendNativeMessage (s : NPState) : Except (List Char) (ℕ × NPState) :=
  if s.portConnected then
    .ok (s.messageId,
      { portConnected := true, messageId := s.messageId + 1
        pending := s.pending ++ [s.messageId] })
  else .error "Native messaging host not connected".toList

/-- `handleNativeMessage`: a message without an id, or with an id that is
not pending, is dropped; a pending id is removed and its promise resolved
with `data` on success or rejected with the embedded error (defaulted when
empty, as `message.error || 'Unknown error'`). -/
def handleNativeMessage {δ : Type} (s : NPState) (msgId : Option ℕ) (success : Bool)
    (data : δ) (err : List Char) : NPState × Option (ℕ × NPOutcome δ) :=
  match msgId with
  | none => (s, none)
  | some msgid =>
    if msgid ∈ s.pending then
      ({ s with pending := s.pending.erase msgid },
       some (msgid,
         if success then .resolved data
         else .rejected (if err.isEmpty then "Unknown error".toList else err)))
    else (s, none)

/-- The `setTimeout` callback in `sendNativeMessage`: if the id is still
pending when the timer fires, it is removed and rejected with the timeout
error; otherwise the callback is a no-op. -/
def timeoutFire (δ : Type) (s : NPState) (msgid : ℕ) : NPState × Option (ℕ × NPOutcome δ) :=
  if msgid ∈ s.pending then
    ({ s with pending := s.pending.erase msgid },
     some (msgid, .rejected "Native message timeout".toList))
  else (s, none)

/-- The `port.onDisconnect` listener: null the port, reject every pending
request with the disconnection error, clear the table. -/
def onDisconnect (δ : Type) (s : NPState) : NPState × List (ℕ × NPOutcome δ) :=
  ({ portConnected := false, messageId := s.messageId, pending := [] },
   s.pending.map fun msgid => (msgid, .rejected "Native host disconnected".toList))

/-- `this.config.messageTimeout || 30000`: the JS `||` falls back on `0`
(falsy) as well as on an absent field. -/
def timeoutDuration (cfgTimeout : Option ℕ) : ℕ :=
  match cfgTimeout with
  | some t => if t = 0 then 30000 else t
  | none => 30000

/-- A matcher that consumes at least one character whenever it succeeds. -/
def Shrinking {α : Type} (m : List Char → Option (α × List Char)) : Prop :=
  ∀ l a r, m l = some (a, r) → r.length < l.length

/-- A decimal token `\d+(?:\.\d+)?` given by its digit strings. -/
structure DecTok where
  intPart : List Char
  fracPart : Option (List Char) := none
  deriving DecidableEq, Repr

/-- Both digit runs are nonempty digit strings (the fractional one only
when present). -/
def DecTok.valid (t : DecTok) : Bool :=
  !t.intPart.isEmpty && t.intPart.all Char.isDigit &&
    (match t.fracPart with
     | none => true
     | some f => !f.isEmpty && f.all Char.isDigit)

/-- The token's text. -/
def DecTok.render (t : DecTok) : List Char :=
  t.intPart ++ (match t.fracPart with | none => [] | some f => '.' :: f)

/-- The token's decimal value (what `parseFloat` denotes). -/
def DecTok.val (t : DecTok) : ℚ :=
  (natVal t.intPart : ℚ) +
    (match t.fracPart with
     | none => 0
     | some f => (natVal f : ℚ) / (10 : ℚ) ^ f.length)

/-- The text of a well-formed `<box>` tag built from four decimal tokens. -/
def renderBoxTag (q1 q2 q3 q4 : DecTok) : List Char :=
  "<box>(".toList ++ q1.render ++ [','] ++ q2.render ++ "),(".toList ++
    q3.render ++ [','] ++ q4.render ++ ")</box>".toList

/-- Four decimal tokens forming one `<box>` tag. -/
structure BoxQuad where
  tx1 : DecTok
  ty1 : DecTok
  tx2 : DecTok
  ty2 : DecTok
  deriving DecidableEq, Repr

def BoxQuad.valid (q : BoxQuad) : Bool :=
  q.tx1.valid && q.ty1.valid && q.tx2.valid && q.ty2.valid

def BoxQuad.render (q : BoxQuad) : List Char :=
  renderBoxTag q.tx1 q.ty1 q.tx2 q.ty2

/-- The box that the spec says the tag denotes: `{x1:a, y1:b, x2:c, y2:d}`. -/
def BoxQuad.toBBox (q : BoxQuad) : BBox :=
  ⟨q.tx1.val, q.ty1.val, q.tx2.val, q.ty2.val⟩

/-- A text interleaving junk separators with well-formed box tags:
`s₀ <box…>₀ s₁ <box…>₁ … tail`. -/
def interleave (pieces : List (List Char × BoxQuad)) (tail : List Char) : List Char :=
  pieces.foldr (fun sq acc => sq.1 ++ (sq.2.render ++ acc)) tail

/-- A detected element with id 1, for the annotation examples. -/
def demoElement : UIElement :=
  { id := 1
    bbox := ⟨0, 0, 1, 1⟩
    normalizedBbox := ⟨0, 0, 1, 1⟩
    autoDescription := "btn".toList
    confidence := 1
    timestamp := 0 }

/-- A session whose only detected element has id 1 (used to exhibit the
behaviour of `annotateElement` on an unknown id). -/
def demoSession : TeachingSession :=
  { tabId := 7
    url := "https://a.com/x".toList
    screenshot := "img".toList
    detectedElements := [demoElement]
    userAnnotations := []
    isActive := true }

/-- A `PageMemory` with a fixed `urlHash`, distinguished by its
`lastUpdated` stamp. -/
def demoMemory (n : ℤ) : PageMemory :=
  { url := "https://a.com/x".toList
    urlHash := "k1".toList
    domain := "a.com".toList
    elements := []
    screenshotHash := "s".toList
    viewportWidth := 1
    viewportHeight := 1
    lastUpdated := n }

/-! ## Scanner infrastructure lemmas -/

theorem prefixOf_exists :
    ∀ (pat l : List Char), pat.isPrefixOf l = true → ∃ t, l = pat ++ t := by
  intro pat
  induction pat with
  | nil => intro l _; exact ⟨l, rfl⟩
  | cons p ps ih =>
    intro l h
    cases l with
    | nil => simp [List.isPrefixOf] at h
    | cons c cs =>
      simp only [List.isPrefixOf, Bool.and_eq_true, beq_iff_eq] at h
      obtain ⟨rfl, h2⟩ := h
      obtain ⟨t, rfl⟩ := ih cs h2
      exact ⟨t, rfl⟩

theorem isPrefixOf_self_append (pat rest : List Char) :
    pat.isPrefixOf (pat ++ rest) = true := by
  induction pat with
  | nil => simp [List.isPrefixOf]
  | cons p ps ih => simp [List.isPrefixOf, ih]

theorem lit_eq {pat l r : List Char} (h : lit pat l = some r) : l = pat ++ r := by
  unfold lit at h
  split at h
  · next hpre =>
    obtain ⟨t, rfl⟩ := prefixOf_exists pat l hpre
    simp only [List.drop_left, Option.some.injEq] at h
    rw [h]
  · exact absurd h (by simp)

theorem lit_append (pat rest : List Char) : lit pat (pat ++ rest) = some rest := by
  unfold lit
  rw [if_pos (isPrefixOf_self_append pat rest), List.drop_left]

theorem lit_cons_none {p c : Char} {ps l : List Char} (h : p ≠ c) :
    lit (p :: ps) (c :: l) = none := by
  unfold lit
  rw [if_neg]
  simp only [List.isPrefixOf, Bool.and_eq_true, beq_iff_eq]
  exact fun hc => h hc.1

theorem lit_length {pat l r : List Char} (h : lit pat l = some r) :
    r.length + pat.length = l.length := by
  have := lit_eq h
  subst this
  simp [Nat.add_comm]

theorem numParse_shrink : ∀ {l : List Char} {p : ℚ × List Char},
    numParse l = some p → p.2.length < l.length := by
  intro l p h
  unfold numParse at h
  split at h
  · exact absurd h (by simp)
  next hne =>
    have h1 : 1 ≤ (l.takeWhile Char.isDigit).length := by
      cases hE : l.takeWhile Char.isDigit with
      | nil => rw [hE] at hne; simp at hne
      | cons a as => simp
    have h2 : (l.takeWhile Char.isDigit).length ≤ l.length :=
      (List.takeWhile_sublist Char.isDigit).length_le
    split at h
    next r2 hr1 =>
      have hr2len : r2.length + 1 = l.length - (l.takeWhile Char.isDigit).length := by
        have := congrArg List.length hr1
        simpa using this.symm
      split at h
      · simp only [Option.some.injEq] at h
        rw [← h]
        simp only [List.length_drop]
        omega
      · simp only [Option.some.injEq] at h
        have h3 : (r2.takeWhile Char.isDigit).length ≤ r2.length :=
          (List.takeWhile_sublist Char.isDigit).length_le
        rw [← h]
        simp only [List.length_drop]
        omega
    next hr1 =>
      simp only [Option.some.injEq] at h
      rw [← h]
      simp only [List.length_drop]
      omega

theorem refContent_shrink : ∀ {l : List Char} {p : List Char × List Char},
    refContent l = some p → p.2.length + 6 ≤ l.length := by
  intro l
  induction l with
  | nil => intro p h; simp [refContent] at h
  | cons c r ih =>
    intro p h
    unfold refContent at h
    split at h
    next hpre =>
      obtain ⟨t, ht⟩ := prefixOf_exists _ _ hpre
      simp only [Option.some.injEq] at h
      subst h
      have h6 : ("</ref>".toList).length = 6 := rfl
      have hdrop : (c :: r).drop 6 = t := by
        rw [ht, ← h6]; exact List.drop_left _ _
      have hlen : r.length = t.length + 5 := by
        have := congrArg List.length ht
        simpa using this
      show ((c :: r).drop 6).length + 6 ≤ (c :: r).length
      rw [hdrop]
      simp only [List.length_cons]
      omega
    · split at h
      · exact absurd h (by simp)
      · split at h
        next cs2 rest2 hrec =>
          simp only [Option.some.injEq] at h
          subst h
          have h2 : rest2.length + 6 ≤ r.length := ih hrec
          show rest2.length + 6 ≤ (c :: r).length
          simp only [List.length_cons]
          omega
        · exact absurd h (by simp)

theorem matchRefAt_shrink : Shrinking matchRefAt := by
  intro l a r h
  simp only [matchRefAt, Option.bind_eq_some, Option.some.injEq] at h
  obtain ⟨r1, h1, p, h3, h4⟩ := h
  have e1 := lit_length h1
  have e2 := refContent_shrink h3
  have hr : r = p.2 := (congrArg Prod.snd h4.symm)
  rw [hr]
  simp only [String.toList, List.length] at e1 ⊢
  omega

theorem matchBoxAt_shrink : Shrinking matchBoxAt := by
  intro l a r h
  simp only [matchBoxAt, Option.bind_eq_some, Option.some.injEq] at h
  obtain ⟨r1, h1, p1, h2, r3, h3, p2, h4, r5, h5, p3, h6,
    r7, h7, p4, h8, r9, h9, h0⟩ := h
  have e1 := lit_length h1
  have e2 := numParse_shrink h2
  have e3 := lit_length h3
  have e4 := numParse_shrink h4
  have e5 := lit_length h5
  have e6 := numParse_shrink h6
  have e7 := lit_length h7
  have e8 := numParse_shrink h8
  have e9 := lit_length h9
  have hr : r = r9 := (congrArg Prod.snd h0.symm)
  rw [hr]
  simp only [String.toList, List.length] at e1 e3 e5 e7 e9 ⊢
  omega

theorem matchPointAt_shrink : Shrinking matchPointAt := by
  intro l a r h
  simp only [matchPointAt, Option.bind_eq_some, Option.some.injEq] at h
  obtain ⟨r1, h1, p1, h2, r3, h3, p2, h4, r5, h5, h0⟩ := h
  have e1 := lit_length h1
  have e2 := numParse_shrink h2
  have e3 := lit_length h3
  have e4 := numParse_shrink h4
  have e5 := lit_length h5
  have hr : r = r5 := (congrArg Prod.snd h0.symm)
  rw [hr]
  simp only [String.toList, List.length] at e1 e3 e5 ⊢
  omega

theorem scanA_fuel {α : Type} {m : List Char → Option (α × List Char)}
    (hm : Shrinking m) :
    ∀ (fuel : ℕ) (l : List Char), l.length ≤ fuel → scanA m fuel l = scanA m l.length l := by
  intro fuel
  induction fuel using Nat.strong_induction_on with
  | _ fuel ih =>
    intro l hl
    cases fuel with
    | zero =>
      have hnil : l = [] := List.eq_nil_of_length_eq_zero (Nat.le_zero.mp hl)
      subst hnil
      rfl
    | succ f =>
      cases l with
      | nil =>
        cases hM : m [] with
        | some ar =>
          have := hm _ ar.1 ar.2 (by rw [hM])
          simp at this
        | none =>
          show scanA m (f + 1) [] = scanA m [].length []
          simp only [scanA, scanBody, hM, List.length_nil]
      | cons c r =>
        simp only [List.length_cons] at hl
        show scanA m (f + 1) (c :: r) = scanA m (c :: r).length (c :: r)
        rw [List.length_cons]
        cases hM : m (c :: r) with
        | some ar =>
          have hrest := hm _ ar.1 ar.2 (by rw [hM])
          simp only [List.length_cons] at hrest
          simp only [scanA, scanBody, hM]
          rw [ih f (by omega) ar.2 (by omega),
            ih r.length (by omega) ar.2 (by omega)]
        | none =>
          simp only [scanA, scanBody, hM]
          rw [ih f (by omega) r (by omega)]

theorem scanAll_cons {α : Type} {m : List Char → Option (α × List Char)}
    (hm : Shrinking m) {l r : List Char} {a : α} (h : m l = some (a, r)) :
    scanAll m l = a :: scanAll m r := by
  have hr := hm _ _ _ h
  cases l with
  | nil => simp at hr
  | cons c t =>
    simp only [List.length_cons] at hr
    show scanA m (c :: t).length (c :: t) = a :: scanAll m r
    rw [List.length_cons]
    simp only [scanA, scanBody, h]
    rw [scanA_fuel hm t.length r (by omega)]
    rfl

theorem scanAll_skip {α : Type} {m : List Char → Option (α × List Char)}
    {c : Char} {t : List Char} (h : m (c :: t) = none) :
    scanAll m (c :: t) = scanAll m t := by
  show scanA m (c :: t).length (c :: t) = scanAll m t
  rw [List.length_cons]
  simp only [scanA, scanBody, h]
  rfl

theorem scanA_forall {α : Type} {m : List Char → Option (α × List Char)}
    {P : α → Prop} (hP : ∀ l a r, m l = some (a, r) → P a) :
    ∀ (fuel : ℕ) (l : List Char), ∀ x ∈ scanA m fuel l, P x := by
  intro fuel
  induction fuel with
  | zero => intro l x hx; simp [scanA] at hx
  | succ f ih =>
    intro l x hx
    cases hM : m l with
    | some ar =>
      simp only [scanA, scanBody, hM] at hx
      rcases List.mem_cons.mp hx with rfl | hx2
      · exact hP _ ar.1 ar.2 (by rw [hM])
      · exact ih ar.2 x hx2
    | none =>
      cases l with
      | nil =>
        simp only [scanA, scanBody, hM] at hx
        simp at hx
      | cons c r =>
        simp only [scanA, scanBody, hM] at hx
        exact ih r x hx

/-! ## Rendering lemmas: the parser on well-formed `<box>` occurrences -/

theorem takeWhile_append_not {p : Char → Bool} {xs : List Char} {c : Char} {ys : List Char}
    (hxs : ∀ x ∈ xs, p x = true) (hc : p c = false) :
    (xs ++ c :: ys).takeWhile p = xs := by
  induction xs with
  | nil => simp [List.takeWhile_cons, hc]
  | cons a as ih =>
    have ha := hxs a (by simp)
    simp only [List.cons_append, List.takeWhile_cons, ha, if_true]
    rw [ih (fun x hx => hxs x (by simp [hx]))]

theorem numParse_render {t : DecTok} {c : Char} {rest : List Char}
    (hv : t.valid = true) (hc : c.isDigit = false) (hdot : c ≠ '.') :
    numParse (t.render ++ c :: rest) = some (t.val, c :: rest) := by
  obtain ⟨ip, fp⟩ := t
  cases fp with
  | none =>
    simp only [DecTok.valid, Bool.and_eq_true, Bool.not_eq_true', List.all_eq_true] at hv
    obtain ⟨⟨h1, h2⟩, -⟩ := hv
    have hr : DecTok.render ⟨ip, none⟩ = ip := by
      simp [DecTok.render]
    rw [hr]
    have htw : ((ip ++ c :: rest).takeWhile Char.isDigit) = ip :=
      takeWhile_append_not (fun x hx => h2 x hx) hc
    unfold numParse
    rw [htw, if_neg (by simp [h1]), List.drop_left]
    split
    next r2 heq =>
      exact absurd (List.head_eq_of_cons_eq heq) hdot
    next =>
      simp [DecTok.val]
  | some f =>
    simp only [DecTok.valid, Bool.and_eq_true, Bool.not_eq_true', List.all_eq_true] at hv
    obtain ⟨⟨h1, h2⟩, hf1, hf2⟩ := hv
    have hr : DecTok.render ⟨ip, some f⟩ ++ c :: rest =
        ip ++ '.' :: (f ++ c :: rest) := by
      simp [DecTok.render]
    rw [hr]
    have htw : ((ip ++ '.' :: (f ++ c :: rest)).takeWhile Char.isDigit) = ip :=
      takeWhile_append_not (fun x hx => h2 x hx) (by decide)
    unfold numParse
    rw [htw, if_neg (by simp [h1]), List.drop_left]
    split
    next r2 heq =>
      have hr2 : f ++ c :: rest = r2 := List.tail_eq_of_cons_eq heq
      subst hr2
      have htwf : ((f ++ c :: rest).takeWhile Char.isDigit) = f :=
        takeWhile_append_not (fun x hx => hf2 x hx) hc
      rw [htwf, if_neg (by simp [hf1]), List.drop_left]
      simp [DecTok.val]
    next hno =>
      exact absurd rfl (hno (f ++ c :: rest))

theorem lit_nil (l : List Char) : lit [] l = some l := by
  simp [lit, List.isPrefixOf]

theorem lit_cons_same (p : Char) (ps l : List Char) :
    lit (p :: ps) (p :: l) = lit ps l := by
  unfold lit
  simp only [List.isPrefixOf, beq_self_eq_true, Bool.true_and, List.length_cons,
    List.drop_succ_cons]

theorem bind_some_red {α β : Type} (a : α) (f : α → Option β) :
    Option.bind (some a) f = f a := rfl

theorem lit_comma (X : List Char) : lit ",".toList (',' :: X) = some X := by
  rw [show ",".toList = [','] from rfl, lit_cons_same, lit_nil]

theorem lit_mid (X : List Char) :
    lit "),(".toList (')' :: ',' :: '(' :: X) = some X := by
  rw [show "),(".toList = [')', ',', '('] from rfl, lit_cons_same, lit_cons_same,
    lit_cons_same, lit_nil]

theorem lit_boxEnd (X : List Char) :
    lit ")</box>".toList (')' :: '<' :: '/' :: 'b' :: 'o' :: 'x' :: '>' :: X) = some X := by
  rw [show ")</box>".toList = [')', '<', '/', 'b', 'o', 'x', '>'] from rfl,
    lit_cons_same, lit_cons_same, lit_cons_same, lit_cons_same, lit_cons_same,
    lit_cons_same, lit_cons_same, lit_nil]

theorem take_sub_append (A t : List Char) :
    (A ++ t).take ((A ++ t).length - t.length) = A := by
  rw [List.length_append, Nat.add_sub_cancel, List.take_left]

theorem matchBoxAt_render {q1 q2 q3 q4 : DecTok} (t : List Char)
    (h1 : q1.valid = true) (h2 : q2.valid = true)
    (h3 : q3.valid = true) (h4 : q4.valid = true) :
    matchBoxAt (renderBoxTag q1 q2 q3 q4 ++ t) =
      some ({ type := .box, content := renderBoxTag q1 q2 q3 q4,
              bbox := some ⟨q1.val, q2.val, q3.val, q4.val⟩ }, t) := by
  have step1 : renderBoxTag q1 q2 q3 q4 ++ t =
      "<box>(".toList ++ (q1.render ++ ',' ::
        (q2.render ++ ')' :: ',' :: '(' ::
          (q3.render ++ ',' ::
            (q4.render ++ ')' :: '<' :: '/' :: 'b' :: 'o' :: 'x' :: '>' :: t)))) := by
    simp [renderBoxTag, show "),(".toList = [')', ',', '('] from rfl,
      show ")</box>".toList = [')', '<', '/', 'b', 'o', 'x', '>'] from rfl,
      List.append_assoc]
  have hlit1 : lit "<box>(".toList (renderBoxTag q1 q2 q3 q4 ++ t) =
      some (q1.render ++ ',' ::
        (q2.render ++ ')' :: ',' :: '(' ::
          (q3.render ++ ',' ::
            (q4.render ++ ')' :: '<' :: '/' :: 'b' :: 'o' :: 'x' :: '>' :: t)))) := by
    rw [step1, lit_append]
  unfold matchBoxAt
  rw [hlit1, bind_some_red,
    numParse_render h1 (by decide) (by decide), bind_some_red]
  show Option.bind (lit ",".toList (',' :: _)) _ = _
  rw [lit_comma, bind_some_red,
    numParse_render h2 (by decide) (by decide), bind_some_red]
  show Option.bind (lit "),(".toList (')' :: ',' :: '(' :: _)) _ = _
  rw [lit_mid, bind_some_red,
    numParse_render h3 (by decide) (by decide), bind_some_red]
  show Option.bind (lit ",".toList (',' :: _)) _ = _
  rw [lit_comma, bind_some_red,
    numParse_render h4 (by decide) (by decide), bind_some_red]
  show Option.bind (lit ")</box>".toList (')' :: '<' :: '/' :: 'b' :: 'o' :: 'x' :: '>' :: t)) _ = _
  rw [lit_boxEnd, bind_some_red]
  rw [take_sub_append]

theorem bind_none_red {α β : Type} (f : α → Option β) :
    Option.bind none f = none := rfl

theorem lit_pos_nil (p : Char) (ps : List Char) : lit (p :: ps) [] = none := by
  simp [lit, List.isPrefixOf]

theorem matchRefAt_head_none {c : Char} {l : List Char} (hc : c ≠ '<') :
    matchRefAt (c :: l) = none := by
  unfold matchRefAt
  rw [show "<ref>".toList = '<' :: "ref>".toList from rfl,
    lit_cons_none (Ne.symm hc), bind_none_red]

theorem matchBoxAt_head_none {c : Char} {l : List Char} (hc : c ≠ '<') :
    matchBoxAt (c :: l) = none := by
  unfold matchBoxAt
  rw [show "<box>(".toList = '<' :: "box>(".toList from rfl,
    lit_cons_none (Ne.symm hc), bind_none_red]

theorem matchPointAt_head_none {c : Char} {l : List Char} (hc : c ≠ '<') :
    matchPointAt (c :: l) = none := by
  unfold matchPointAt
  rw [show "<point>(".toList = '<' :: "point>(".toList from rfl,
    lit_cons_none (Ne.symm hc), bind_none_red]

theorem scanAll_junk {α : Type} {m : List Char → Option (α × List Char)}
    (hhead : ∀ (c : Char) (l : List Char), c ≠ '<' → m (c :: l) = none)
    {s : List Char} (hs : ∀ c ∈ s, c ≠ '<') (t : List Char) :
    scanAll m (s ++ t) = scanAll m t := by
  induction s with
  | nil => rw [List.nil_append]
  | cons c cs ih =>
    rw [List.cons_append, scanAll_skip (hhead c (cs ++ t) (hs c (by simp))),
      ih (fun x hx => hs x (by simp [hx]))]

theorem matchRefAt_fmt : ∀ (l : List Char) (a : GroundingFormat) (r : List Char),
    matchRefAt l = some (a, r) → a.type = GKind.ref := by
  intro l a r h
  simp only [matchRefAt, Option.bind_eq_some, Option.some.injEq] at h
  obtain ⟨r1, h1, p, h3, h4⟩ := h
  injection h4 with ha hb
  subst ha
  rfl

theorem matchBoxAt_fmt : ∀ (l : List Char) (a : GroundingFormat) (r : List Char),
    matchBoxAt l = some (a, r) →
      a.type = GKind.box ∧ a.bbox.isSome = true := by
  intro l a r h
  simp only [matchBoxAt, Option.bind_eq_some, Option.some.injEq] at h
  obtain ⟨r1, h1, p1, h2, r3, h3, p2, h4, r5, h5, p3, h6,
    r7, h7, p4, h8, r9, h9, h0⟩ := h
  injection h0 with ha hb
  subst ha
  exact ⟨rfl, rfl⟩

theorem matchPointAt_fmt : ∀ (l : List Char) (a : GroundingFormat) (r : List Char),
    matchPointAt l = some (a, r) → a.type = GKind.point := by
  intro l a r h
  simp only [matchPointAt, Option.bind_eq_some, Option.some.injEq] at h
  obtain ⟨r1, h1, p1, h2, r3, h3, p2, h4, r5, h5, h0⟩ := h
  injection h0 with ha hb
  subst ha
  rfl

/-- `extractBoundingBoxes` keeps exactly the box-scan results: the ref and
point formats are dropped by the kind filter, every box format carries a
box. -/
theorem extract_eq (t : List Char) :
    extractBoundingBoxes t = (scanAll matchBoxAt t).filterMap (fun f => f.bbox) := by
  unfold extractBoundingBoxes parseGrounding
  rw [List.filter_append, List.filter_append]
  have hr : (scanAll matchRefAt t).filter
      (fun f => f.type == GKind.box && f.bbox.isSome) = [] := by
    apply List.filter_eq_nil_iff.mpr
    intro f hf
    have := scanA_forall matchRefAt_fmt t.length t f hf
    simp [this]
  have hp : (scanAll matchPointAt t).filter
      (fun f => f.type == GKind.box && f.bbox.isSome) = [] := by
    apply List.filter_eq_nil_iff.mpr
    intro f hf
    have := scanA_forall matchPointAt_fmt t.length t f hf
    simp [this]
  have hb : (scanAll matchBoxAt t).filter
      (fun f => f.type == GKind.box && f.bbox.isSome) = scanAll matchBoxAt t := by
    apply List.filter_eq_self.mpr
    intro f hf
    have := scanA_forall matchBoxAt_fmt t.length t f hf
    simp [this.1, this.2]
  rw [hr, hp, hb, List.nil_append, List.append_nil]

theorem scanAll_box_interleave (pieces : List (List Char × BoxQuad)) (tail : List Char)
    (hp : ∀ sq ∈ pieces, (∀ c ∈ sq.1, c ≠ '<') ∧ sq.2.valid = true)
    (ht : ∀ c ∈ tail, c ≠ '<') :
    scanAll matchBoxAt (interleave pieces tail) =
      pieces.map (fun sq =>
        { type := .box, content := sq.2.render, bbox := some sq.2.toBBox }) := by
  induction pieces with
  | nil =>
    show scanAll matchBoxAt tail = []
    rw [← List.append_nil tail, scanAll_junk (fun c l => matchBoxAt_head_none) ht]
    rfl
  | cons sq rest ih =>
    obtain ⟨hjunk, hvalid⟩ := hp sq (by simp)
    simp only [BoxQuad.valid, Bool.and_eq_true] at hvalid
    obtain ⟨⟨⟨hv1, hv2⟩, hv3⟩, hv4⟩ := hvalid
    show scanAll matchBoxAt (sq.1 ++ (sq.2.render ++ interleave rest tail)) = _
    rw [scanAll_junk (fun c l => matchBoxAt_head_none) hjunk,
      show sq.2.render = renderBoxTag sq.2.tx1 sq.2.ty1 sq.2.tx2 sq.2.ty2 from rfl,
      scanAll_cons matchBoxAt_shrink
        (matchBoxAt_render (interleave rest tail) hv1 hv2 hv3 hv4),
      ih (fun x hx => hp x (by simp [hx]))]
    rfl

/-! ## Claim C1: the IoU contract -/

/-- `calculateIoU` with the `let`s expanded. -/
theorem calculateIoU_eq (b1 b2 : BBox) :
    calculateIoU b1 b2 =
      if min b1.x2 b2.x2 < max b1.x1 b2.x1 ∨ min b1.y2 b2.y2 < max b1.y1 b2.y1 then
        some 0
      else
        if (b1.x2 - b1.x1) * (b1.y2 - b1.y1) + (b2.x2 - b2.x1) * (b2.y2 - b2.y1) -
              (min b1.x2 b2.x2 - max b1.x1 b2.x1) * (min b1.y2 b2.y2 - max b1.y1 b2.y1) =
            0 then
          none
        else
          some ((min b1.x2 b2.x2 - max b1.x1 b2.x1) * (min b1.y2 b2.y2 - max b1.y1 b2.y1) /
            ((b1.x2 - b1.x1) * (b1.y2 - b1.y1) + (b2.x2 - b2.x1) * (b2.y2 - b2.y1) -
              (min b1.x2 b2.x2 - max b1.x1 b2.x1) * (min b1.y2 b2.y2 - max b1.y1 b2.y1))) :=
  rfl

/-- C1 counterexample: the zero-area box `{0,0,0,0}` is well-formed, and
`calculateIoU` of it with itself is `0/0` (`NaN` in JS, `none` here) — it is
neither the `1.0` the claim requires for identical well-formed boxes nor the
`0` the claim requires when either box has zero area. -/
theorem C1_zero_area_counterexample :
    BBox.WellFormed ⟨0, 0, 0, 0⟩ ∧
    BBox.area ⟨0, 0, 0, 0⟩ = 0 ∧
    calculateIoU ⟨0, 0, 0, 0⟩ ⟨0, 0, 0, 0⟩ = none ∧
    calculateIoU ⟨0, 0, 0, 0⟩ ⟨0, 0, 0, 0⟩ ≠ some 1 ∧
    calculateIoU ⟨0, 0, 0, 0⟩ ⟨0, 0, 0, 0⟩ ≠ some 0 := by
  have h : calculateIoU ⟨0, 0, 0, 0⟩ ⟨0, 0, 0, 0⟩ = none := by
    norm_num [calculateIoU]
  exact ⟨⟨le_refl 0, le_refl 0⟩, by norm_num [BBox.area], h, by simp [h], by simp [h]⟩

/-- C1 (amended): `calculateIoU` returns `1.0` for identical well-formed
boxes of positive area; `0` when the boxes are disjoint on either axis; it
is symmetric for all boxes; and it returns `0` when one well-formed box has
zero area and the other has nonzero area (when both areas are zero and the
boxes touch, the JS code computes `0/0 = NaN` instead, see the
counterexample). -/
theorem calculateIoU_spec (a b : BBox) :
    (a.WellFormed → 0 < a.area → calculateIoU a a = some 1) ∧
    (min a.x2 b.x2 < max a.x1 b.x1 ∨ min a.y2 b.y2 < max a.y1 b.y1 →
      calculateIoU a b = some 0) ∧
    calculateIoU a b = calculateIoU b a ∧
    (a.WellFormed → b.WellFormed → a.area = 0 → b.area ≠ 0 →
      calculateIoU a b = some 0) := by
  refine ⟨?_, ?_, ?_, ?_⟩
  · -- identical, positive area
    intro hwf hpos
    obtain ⟨hx, hy⟩ := hwf
    have hA : (a.x2 - a.x1) * (a.y2 - a.y1) = a.area := rfl
    rw [calculateIoU_eq, min_self, min_self, max_self, max_self,
      if_neg (by push_neg; exact ⟨not_lt.mp (not_lt.mpr hx), not_lt.mp (not_lt.mpr hy)⟩)]
    rw [show (a.x2 - a.x1) * (a.y2 - a.y1) + (a.x2 - a.x1) * (a.y2 - a.y1) -
        (a.x2 - a.x1) * (a.y2 - a.y1) = (a.x2 - a.x1) * (a.y2 - a.y1) from by ring]
    rw [hA, if_neg (ne_of_gt hpos), div_self (ne_of_gt hpos)]
  · -- disjoint on either axis
    intro hd
    rw [calculateIoU_eq, if_pos hd]
  · -- symmetry
    rw [calculateIoU_eq a b, calculateIoU_eq b a,
      min_comm b.x2 a.x2, max_comm b.x1 a.x1, min_comm b.y2 a.y2, max_comm b.y1 a.y1,
      add_comm ((b.x2 - b.x1) * (b.y2 - b.y1)) ((a.x2 - a.x1) * (a.y2 - a.y1))]
  · -- one zero-area box, the other of nonzero area
    intro hwa hwb hza hnb
    rw [calculateIoU_eq]
    by_cases hd : min a.x2 b.x2 < max a.x1 b.x1 ∨ min a.y2 b.y2 < max a.y1 b.y1
    · rw [if_pos hd]
    · rw [if_neg hd]
      push_neg at hd
      obtain ⟨hdx, hdy⟩ := hd
      have hI : (min a.x2 b.x2 - max a.x1 b.x1) * (min a.y2 b.y2 - max a.y1 b.y1) = 0 := by
        unfold BBox.area at hza
        rcases mul_eq_zero.mp hza with hx0 | hy0
        · have e1 : min a.x2 b.x2 ≤ a.x1 := by
            have : a.x2 = a.x1 := by linarith
            calc min a.x2 b.x2 ≤ a.x2 := min_le_left _ _
              _ = a.x1 := this
          have e2 : a.x1 ≤ max a.x1 b.x1 := le_max_left _ _
          have : min a.x2 b.x2 - max a.x1 b.x1 = 0 := by linarith
          rw [this, zero_mul]
        · have e1 : min a.y2 b.y2 ≤ a.y1 := by
            have : a.y2 = a.y1 := by linarith
            calc min a.y2 b.y2 ≤ a.y2 := min_le_left _ _
              _ = a.y1 := this
          have e2 : a.y1 ≤ max a.y1 b.y1 := le_max_left _ _
          have : min a.y2 b.y2 - max a.y1 b.y1 = 0 := by linarith
          rw [this, mul_zero]
      have hU : (a.x2 - a.x1) * (a.y2 - a.y1) + (b.x2 - b.x1) * (b.y2 - b.y1) -
          (min a.x2 b.x2 - max a.x1 b.x1) * (min a.y2 b.y2 - max a.y1 b.y1) = b.area := by
        have hA : (a.x2 - a.x1) * (a.y2 - a.y1) = 0 := hza
        rw [hA, hI]
        unfold BBox.area
        ring
      rw [hU, if_neg hnb, hI, zero_div]

/-- C1 witness: the amended IoU facts at concrete boxes. -/
theorem calculateIoU_spec_witness :
    calculateIoU ⟨0, 0, 2, 2⟩ ⟨0, 0, 2, 2⟩ = some 1 ∧
    calculateIoU ⟨0, 0, 2, 2⟩ ⟨5, 0, 7, 2⟩ = some 0 ∧
    calculateIoU ⟨0, 0, 2, 2⟩ ⟨5, 0, 7, 2⟩ = calculateIoU ⟨5, 0, 7, 2⟩ ⟨0, 0, 2, 2⟩ ∧
    calculateIoU ⟨1, 0, 1, 2⟩ ⟨0, 0, 9, 9⟩ = some 0 := by
  refine ⟨(calculateIoU_spec ⟨0, 0, 2, 2⟩ ⟨0, 0, 2, 2⟩).1 (by constructor <;> norm_num)
      (by norm_num [BBox.area]),
    (calculateIoU_spec ⟨0, 0, 2, 2⟩ ⟨5, 0, 7, 2⟩).2.1 (Or.inl ?_),
    (calculateIoU_spec ⟨0, 0, 2, 2⟩ ⟨5, 0, 7, 2⟩).2.2.1,
    (calculateIoU_spec ⟨1, 0, 1, 2⟩ ⟨0, 0, 9, 9⟩).2.2.2 (by constructor <;> norm_num)
      (by constructor <;> norm_num) (by norm_num [BBox.area]) (by norm_num [BBox.area])⟩
  show min (2 : ℚ) 7 < max 0 5
  rw [min_def, max_def]
  norm_num

/-! ## Claim C3: the normalized/pixel round trip -/

/-- C3 counterexample: at dimension `5000` and pixel `2` the round trip
returns `0`, which is not within `±1` of `2`. -/
theorem C3_roundtrip_counterexample :
    normalizedToPixel (pixelToNormalized 2 5000) 5000 = 0 ∧
    ¬(|normalizedToPixel (pixelToNormalized 2 5000) 5000 - 2| ≤ 1) := by
  have h1 : pixelToNormalized 2 5000 = 0 := by
    show ((⌊(2 : ℚ) / 5000 * 1000 + 1/2⌋ : ℤ) : ℚ) = 0
    norm_num
  have h2 : normalizedToPixel 0 5000 = 0 := by
    show ((⌊(0 : ℚ) / 1000 * 5000 + 1/2⌋ : ℤ) : ℚ) = 0
    norm_num
  rw [h1, h2]
  norm_num

/-- C3 (amended): for every integer dimension `d` with `0 < d ≤ 2000` and
every integer pixel `p` with `0 ≤ p ≤ d`, the round trip
`normalizedToPixel (pixelToNormalized p d) d` is within `±1` of `p`.  (The
claim's unbounded version fails, e.g. at `d = 5000`, `p = 2`.) -/
theorem roundtrip_within_one (d p : ℤ) (hd : 0 < d) (hd2 : d ≤ 2000)
    (_hp0 : 0 ≤ p) (_hpd : p ≤ d) :
    |normalizedToPixel (pixelToNormalized (p : ℚ) (d : ℚ)) (d : ℚ) - (p : ℚ)| ≤ 1 := by
  have hdq : (0 : ℚ) < (d : ℚ) := by exact_mod_cast hd
  have hdq2 : (d : ℚ) ≤ 2000 := by exact_mod_cast hd2
  unfold normalizedToPixel pixelToNormalized jsRound
  set x : ℚ := (p : ℚ) / (d : ℚ) * 1000 with hx
  set n : ℤ := ⌊x + 1/2⌋ with hn
  have hb1 : |(n : ℚ) - x| ≤ 1/2 := by
    have hle : (n : ℚ) ≤ x + 1/2 := Int.floor_le _
    have hgt : x + 1/2 - 1 < (n : ℚ) := Int.sub_one_lt_floor _
    rw [abs_le]
    constructor <;> linarith
  set y : ℚ := (n : ℚ) / 1000 * (d : ℚ) with hy
  set r : ℤ := ⌊y + 1/2⌋ with hr
  have hb2 : |(r : ℚ) - y| ≤ 1/2 := by
    have hle : (r : ℚ) ≤ y + 1/2 := Int.floor_le _
    have hgt : y + 1/2 - 1 < (r : ℚ) := Int.sub_one_lt_floor _
    rw [abs_le]
    constructor <;> linarith
  have hyp : y - (p : ℚ) = ((n : ℚ) - x) * ((d : ℚ) / 1000) := by
    rw [hy, hx]
    field_simp
    ring
  have hb3 : |y - (p : ℚ)| ≤ 1/2 * ((d : ℚ) / 1000) := by
    rw [hyp, abs_mul, abs_of_pos (div_pos hdq (by norm_num))]
    exact mul_le_mul_of_nonneg_right hb1 (le_of_lt (div_pos hdq (by norm_num)))
  have hb4 : |(r : ℚ) - (p : ℚ)| ≤ 3/2 := by
    calc |(r : ℚ) - (p : ℚ)| ≤ |(r : ℚ) - y| + |y - (p : ℚ)| := abs_sub_le _ _ _
      _ ≤ 1/2 + 1/2 * ((d : ℚ) / 1000) := add_le_add hb2 hb3
      _ ≤ 3/2 := by linarith
  have hcast : ((|r - p| : ℤ) : ℚ) = |(r : ℚ) - (p : ℚ)| := by
    rw [Int.cast_abs]
    push_cast
    ring_nf
  have hint : |r - p| ≤ (1 : ℤ) := by
    have hc2 : ((|r - p| : ℤ) : ℚ) < ((2 : ℤ) : ℚ) := by
      rw [hcast]
      calc |(r : ℚ) - (p : ℚ)| ≤ 3/2 := hb4
        _ < ((2 : ℤ) : ℚ) := by norm_num
    have : |r - p| < 2 := by exact_mod_cast hc2
    omega
  have hfin : |(r : ℚ) - (p : ℚ)| ≤ ((1 : ℤ) : ℚ) := by
    rw [← hcast]
    exact_mod_cast hint
  simpa using hfin

/-! ## Claim C5: element matching -/

theorem bestStep_fold (remembered : UIElement) :
    ∀ (cur : List UIElement) (b : ElementMatchResult),
      b.element = remembered → b.matched = decide ((1 : ℚ)/2 < b.similarity) →
      cur.foldl (bestStep remembered) b =
        { element := remembered,
          similarity := cur.foldl (iouStep remembered) b.similarity,
          matched := decide ((1 : ℚ)/2 < cur.foldl (iouStep remembered) b.similarity) } := by
  intro cur
  induction cur with
  | nil =>
    intro b h1 h2
    simp only [List.foldl_nil]
    cases b
    simp only at h1 h2
    rw [h1, h2]
  | cons c cs ih =>
    intro b h1 h2
    simp only [List.foldl_cons]
    have hstep : bestStep remembered b c =
        { element := remembered, similarity := iouStep remembered b.similarity c,
          matched := decide ((1 : ℚ)/2 < iouStep remembered b.similarity c) } := by
      unfold bestStep iouStep
      cases hIoU : calculateIoU c.normalizedBbox remembered.normalizedBbox with
      | none =>
        dsimp only
        cases b
        simp only at h1 h2
        rw [h1, h2]
      | some iou =>
        dsimp only
        by_cases hlt : b.similarity < iou
        · rw [if_pos hlt, max_eq_right (le_of_lt hlt)]
        · rw [if_neg hlt, max_eq_left (not_lt.mp hlt)]
          cases b
          simp only at h1 h2 ⊢
          rw [h1, h2]
    rw [hstep, ih _ rfl rfl]

/-- C5: `matchElements` returns one result per remembered element, in
order; each result's `similarity` is the maximum defined IoU of that
element's normalized box against every current element (`0` when the
current list is empty), and `matched` holds exactly when that maximum is
strictly above `0.5`.  The second conjunct is the empty-current case:
similarity `0`, `matched` false. -/
theorem matchElements_spec (currentElements rememberedElements : List UIElement) :
    matchElements currentElements rememberedElements =
      rememberedElements.map (fun remembered =>
        { element := remembered, similarity := maxIoU currentElements remembered,
          matched := decide ((1 : ℚ)/2 < maxIoU currentElements remembered) }) ∧
    matchElements [] rememberedElements =
      rememberedElements.map (fun remembered =>
        { element := remembered, similarity := 0, matched := false }) := by
  have hmain : ∀ cur : List UIElement, matchElements cur rememberedElements =
      rememberedElements.map (fun remembered =>
        { element := remembered, similarity := maxIoU cur remembered,
          matched := decide ((1 : ℚ)/2 < maxIoU cur remembered) }) := by
    intro cur
    unfold matchElements maxIoU
    apply List.map_congr_left
    intro r _
    unfold matchOne
    rw [bestStep_fold r cur { element := r, similarity := 0, matched := false } rfl
      (by norm_num)]
  refine ⟨hmain currentElements, ?_⟩
  rw [hmain []]
  apply List.map_congr_left
  intro r _
  have h0 : maxIoU [] r = 0 := rfl
  rw [h0]
  norm_num

/-! ## Claim C10: `parseGrounding` groups results by kind -/

theorem map_eq_replicate {α β : Type} {l : List α} {f : α → β} {b : β}
    (h : ∀ x ∈ l, f x = b) : l.map f = List.replicate l.length b := by
  induction l with
  | nil => rfl
  | cons a as ih =>
    simp only [List.map_cons, List.length_cons, List.replicate_succ]
    rw [h a (by simp), ih (fun x hx => h x (by simp [hx]))]

/-- C10: for every input, `parseGrounding` returns all ref formats first,
then all box formats, then all point formats — grouped by kind, not
interleaved by text position; the concrete conjunct shows an input whose
document order (point, box, ref) is reversed by the grouping. -/
theorem parseGrounding_grouped (t : List Char) :
    (parseGrounding t).map GroundingFormat.type =
      List.replicate (scanAll matchRefAt t).length GKind.ref ++
      List.replicate (scanAll matchBoxAt t).length GKind.box ++
      List.replicate (scanAll matchPointAt t).length GKind.point ∧
    (parseGrounding "<point>(1,2)</point><box>(1,2),(3,4)</box><ref>a</ref>".toList).map
      GroundingFormat.type = [GKind.ref, GKind.box, GKind.point] := by
  constructor
  · unfold parseGrounding
    rw [List.map_append, List.map_append]
    have hR : ∀ x ∈ scanAll matchRefAt t, GroundingFormat.type x = GKind.ref :=
      fun x hx => scanA_forall matchRefAt_fmt t.length t x hx
    have hB : ∀ x ∈ scanAll matchBoxAt t, GroundingFormat.type x = GKind.box :=
      fun x hx => (scanA_forall matchBoxAt_fmt t.length t x hx).1
    have hP : ∀ x ∈ scanAll matchPointAt t, GroundingFormat.type x = GKind.point :=
      fun x hx => scanA_forall matchPointAt_fmt t.length t x hx
    rw [map_eq_replicate hR, map_eq_replicate hB, map_eq_replicate hP]
  · decide

/-! ## Claim C6: box extraction -/

theorem filterMap_bbox_mk (l : List (List Char × BoxQuad)) :
    (l.map (fun sq =>
        ({ type := .box, content := sq.2.render, bbox := some sq.2.toBBox } :
          GroundingFormat))).filterMap (fun f => f.bbox) =
      l.map (fun sq => sq.2.toBBox) := by
  induction l with
  | nil => rfl
  | cons sq rest ih =>
    simp only [List.map_cons, List.filterMap_cons]
    rw [ih]

/-- C6: on any text interleaving arbitrary tag-free separators with
well-formed `<box>(a,b),(c,d)</box>` tags, `extractBoundingBoxes` yields
exactly one box per tag, in text order, carrying the decimal values of the
four coordinate tokens; the two concrete conjuncts show malformed tags
(bad punctuation, unterminated tag) being skipped without error. -/
theorem extractBoundingBoxes_spec :
    (∀ (pieces : List (List Char × BoxQuad)) (tail : List Char),
      (∀ sq ∈ pieces, (∀ c ∈ sq.1, c ≠ '<') ∧ sq.2.valid = true) →
      (∀ c ∈ tail, c ≠ '<') →
      extractBoundingBoxes (interleave pieces tail) =
        pieces.map (fun sq => sq.2.toBBox)) ∧
    extractBoundingBoxes "<box>(1,2(,3,4)</box>".toList = [] ∧
    extractBoundingBoxes "<box>(1,2),(3,4)</box".toList = [] := by
  refine ⟨?_, by decide, by decide⟩
  intro pieces tail hp ht
  rw [extract_eq, scanAll_box_interleave pieces tail hp ht, filterMap_bbox_mk]

/-- C6 witness: one junk prefix, one box tag `<box>(1,2),(30,4.5)</box>`,
one junk suffix. -/
theorem extractBoundingBoxes_spec_witness :
    extractBoundingBoxes
        (interleave
          [("junk ".toList,
            ⟨⟨['1'], none⟩, ⟨['2'], none⟩, ⟨['3', '0'], none⟩, ⟨['4'], some ['5']⟩⟩)]
          " trailing".toList) =
      [BoxQuad.toBBox ⟨⟨['1'], none⟩, ⟨['2'], none⟩, ⟨['3', '0'], none⟩, ⟨['4'], some ['5']⟩⟩] :=
  extractBoundingBoxes_spec.1
    [("junk ".toList, ⟨⟨['1'], none⟩, ⟨['2'], none⟩, ⟨['3', '0'], none⟩, ⟨['4'], some ['5']⟩⟩)]
    " trailing".toList (by decide) (by decide)

/-- C3 witness: the amended round trip at `d = 1000`, `p = 777`. -/
theorem roundtrip_within_one_witness :
    |normalizedToPixel (pixelToNormalized ((777 : ℤ) : ℚ) ((1000 : ℤ) : ℚ)) ((1000 : ℤ) : ℚ) -
        ((777 : ℤ) : ℚ)| ≤ 1 :=
  roundtrip_within_one 1000 777 (by norm_num) (by norm_num) (by norm_num) (by norm_num)

/-! ## Claim C4: element detection from the model text -/

/-- C4 counterexample: on the spec's example response
`<box>(10,10),(20,20)</box> OK button`, the detected element's
`autoDescription` is the synthesized placeholder `Element 1`, not
`OK button` — the description regex `\]\s*(.+)$` requires a `]` before the
description and the line contains none. -/
theorem C4_description_counterexample :
    (detectElementsCore "<box>(10,10),(20,20)</box> OK button".toList 1000 1000 0).map
      (fun e => e.autoDescription) = ["Element 1".toList] ∧
    "Element 1".toList ≠ "OK button".toList := by
  constructor
  · decide
  · decide

/-- C4 (amended): `detectElements` produces one element per extracted box
with sequential ids starting at 1, confidence `0.8` and the given
timestamp on every element; on the concrete response
`<box>(10,10),(20,20)</box> OK button` it produces exactly one element,
with id 1 and the placeholder description `Element 1` (not `OK button`:
the description is taken from the text following a `]` on the box's line,
and is synthesized as `Element ${index+1}` when there is none). -/
theorem detectElements_spec :
    (∀ (text : List Char) (vw vh : ℚ) (now : ℤ),
      (detectElementsCore text vw vh now).map (fun e => e.id) =
        (List.range (extractBoundingBoxes text).length).map (fun i => i + 1) ∧
      (detectElementsCore text vw vh now).map (fun e => (e.confidence, e.timestamp)) =
        List.replicate (detectElementsCore text vw vh now).length ((4 : ℚ)/5, now)) ∧
    (detectElementsCore "<box>(10,10),(20,20)</box> OK button".toList 1000 1000 0).map
      (fun e => (e.id, e.autoDescription)) = [(1, "Element 1".toList)] := by
  refine ⟨fun text vw vh now => ⟨?_, ?_⟩, by decide⟩
  · unfold detectElementsCore
    rw [List.map_map]
    have hcomp : ((fun e => e.id) ∘ (fun (p : ℕ × BBox) =>
        ({ id := p.1 + 1, bbox := p.2,
           normalizedBbox := pixelBoxToNormalized p.2 vw vh,
           autoDescription :=
             match jsDescMatch (((splitOnNl text).filter
                 (fun line => containsSub "<box>".toList line)).getD p.1 []) with
             | some cap => jsTrim cap
             | none => "Element ".toList ++ (Nat.repr (p.1 + 1)).toList,
           confidence := 4/5, timestamp := now } : UIElement))) =
        (fun p : ℕ × BBox => p.1 + 1) := by
      funext p
      rcases p with ⟨i, b⟩
      rfl
    rw [hcomp, show (fun p : ℕ × BBox => p.1 + 1) = (fun i => i + 1) ∘ Prod.fst from rfl,
      ← List.map_map, List.enum_map_fst]
  · apply map_eq_replicate
    intro e he
    unfold detectElementsCore at he
    obtain ⟨⟨i, b⟩, hmem, rfl⟩ := List.mem_map.mp he
    exact rfl

/-! ## Claim C7: annotating an element -/

theorem lookupA_setA {κ β : Type} [DecidableEq κ] (l : List (κ × β)) (k : κ) (v : β) :
    lookupA (setA l k v) k = some v := by
  induction l with
  | nil => simp [setA, lookupA]
  | cons kv rest ih =>
    rcases kv with ⟨k0, v0⟩
    by_cases hk : k0 = k
    · simp [setA, lookupA, hk]
    · simp only [setA, lookupA, if_neg hk]
      exact ih

theorem updateFirst_nomatch {α : Type} {p : α → Bool} {f : α → α} :
    ∀ {l : List α}, (∀ a ∈ l, p a = false) → updateFirst p f l = l := by
  intro l
  induction l with
  | nil => intro; rfl
  | cons a rest ih =>
    intro h
    unfold updateFirst
    rw [if_neg (by simp [h a (by simp)]), ih (fun x hx => h x (by simp [hx]))]

theorem updateFirst_found {α : Type} {p : α → Bool} {f : α → α}
    (pre : List α) (el : α) (post : List α)
    (hpre : ∀ a ∈ pre, p a = false) (hel : p el = true) :
    updateFirst p f (pre ++ el :: post) = pre ++ f el :: post := by
  induction pre with
  | nil => simp [updateFirst, hel]
  | cons a rest ih =>
    simp only [List.cons_append, updateFirst, List.append_eq]
    rw [if_neg (by simp [hpre a (by simp)]), ih (fun x hx => hpre x (by simp [hx]))]

/-- C7 counterexample: annotating id 2 on a session whose only element has
id 1 is *not* an error: the call succeeds, silently records the annotation
in the map, and leaves the detected elements unchanged — the claim's
"reported to the caller" local error does not happen. -/
theorem C7_unknown_id_counterexample :
    (∀ el ∈ demoSession.detectedElements, el.id ≠ 2) ∧
    annotateElement [(7, demoSession)] 7 2 "X".toList =
      .ok [(7, { demoSession with userAnnotations := [(2, "X".toList)] })] := by
  constructor
  · decide
  · rfl

/-- C7 (amended): on an active session, `annotateElement` never fails for
an unknown element id — it returns successfully, records the annotation in
`userAnnotations` (retrievable by id), and leaves `detectedElements`
unchanged when no element has the id; when an element with the id exists,
the first such element's `userDescription` is overwritten with the new
label.  The session stays registered (the registry is updated in place). -/
theorem annotateElement_spec (sessions : List (ℕ × TeachingSession))
    (tabId elementId : ℕ) (desc : List Char) (session : TeachingSession)
    (h : lookupA sessions tabId = some session) :
    annotateElement sessions tabId elementId desc =
      .ok (setA sessions tabId
        { session with
          userAnnotations := setA session.userAnnotations elementId desc
          detectedElements := updateFirst (fun e => e.id == elementId)
            (fun e => { e with userDescription := some desc })
            session.detectedElements }) ∧
    ((∀ el ∈ session.detectedElements, el.id ≠ elementId) →
      updateFirst (fun e => e.id == elementId)
        (fun e => { e with userDescription := some desc })
        session.detectedElements = session.detectedElements) ∧
    lookupA (setA session.userAnnotations elementId desc) elementId = some desc ∧
    (∀ (pre post : List UIElement) (el : UIElement),
      session.detectedElements = pre ++ el :: post →
      (∀ a ∈ pre, a.id ≠ elementId) → el.id = elementId →
      updateFirst (fun e => e.id == elementId)
        (fun e => { e with userDescription := some desc })
        session.detectedElements =
        pre ++ { el with userDescription := some desc } :: post) := by
  refine ⟨?_, ?_, lookupA_setA _ _ _, ?_⟩
  · unfold annotateElement
    rw [h]
  · intro hnone
    exact updateFirst_nomatch (fun a ha => by simp [hnone a ha])
  · intro pre post el hsplit hpre hel
    rw [hsplit]
    exact updateFirst_found pre el post (fun a ha => by simp [hpre a ha]) (by simp [hel])

/-- C7 witness: the amended behaviour at the demo session, for the unknown
id 2 and for the existing id 1. -/
theorem annotateElement_spec_witness :
    annotateElement [(7, demoSession)] 7 2 "X".toList =
      .ok (setA [(7, demoSession)] 7
        { demoSession with
          userAnnotations := setA demoSession.userAnnotations 2 "X".toList
          detectedElements := updateFirst (fun e => e.id == 2)
            (fun e => { e with userDescription := some "X".toList })
            demoSession.detectedElements }) ∧
    updateFirst (fun e => e.id == 2)
      (fun e => { e with userDescription := some "X".toList })
      demoSession.detectedElements = demoSession.detectedElements ∧
    lookupA (setA demoSession.userAnnotations 2 "X".toList) 2 = some "X".toList :=
  ⟨(annotateElement_spec [(7, demoSession)] 7 2 "X".toList demoSession (by decide)).1,
   (annotateElement_spec [(7, demoSession)] 7 2 "X".toList demoSession (by decide)).2.1
     (by decide),
   (annotateElement_spec [(7, demoSession)] 7 2 "X".toList demoSession (by decide)).2.2.1⟩

/-! ## Claim C8: `startTeaching` atomicity -/

/-- C8: `startTeaching` registers the session only after both the capture
and the detection step succeed: a failing capture or detection surfaces
that error and leaves the `activeSessions` registry unchanged; on success
the new session (and only then) is stored under the tab id. -/
theorem startTeaching_spec (sessions : List (ℕ × TeachingSession)) (tabId : ℕ)
    (url : List Char) (captureResult : Except (List Char) (List Char))
    (detectResult : List Char → Except (List Char) (List UIElement)) (e : List Char) :
    (captureResult = .error e →
      startTeaching sessions tabId url captureResult detectResult = (.error e, sessions)) ∧
    (∀ s, captureResult = .ok s → detectResult s = .error e →
      startTeaching sessions tabId url captureResult detectResult = (.error e, sessions)) ∧
    (∀ s els, captureResult = .ok s → detectResult s = .ok els →
      startTeaching sessions tabId url captureResult detectResult =
        (.ok { tabId := tabId, url := url, screenshot := s, detectedElements := els,
               userAnnotations := [], isActive := true },
         setA sessions tabId
           { tabId := tabId, url := url, screenshot := s, detectedElements := els,
             userAnnotations := [], isActive := true })) := by
  refine ⟨?_, ?_, ?_⟩
  · intro hc
    unfold startTeaching
    rw [hc]
  · intro s hc hdet
    unfold startTeaching
    rw [hc]
    dsimp only
    rw [hdet]
  · intro s els hc hdet
    unfold startTeaching
    rw [hc]
    dsimp only
    rw [hdet]

/-- C8 witness: the three branches at concrete inputs. -/
theorem startTeaching_spec_witness :
    startTeaching [] 1 "u".toList (.error "capture failed".toList)
        (fun _ => .ok []) = (.error "capture failed".toList, []) ∧
    startTeaching [] 1 "u".toList (.ok "shot".toList)
        (fun _ => .error "model failed".toList) = (.error "model failed".toList, []) ∧
    startTeaching [] 1 "u".toList (.ok "shot".toList) (fun _ => .ok []) =
      (.ok { tabId := 1, url := "u".toList, screenshot := "shot".toList,
             detectedElements := [], userAnnotations := [], isActive := true },
       setA [] 1
         { tabId := 1, url := "u".toList, screenshot := "shot".toList,
           detectedElements := [], userAnnotations := [], isActive := true }) :=
  ⟨(startTeaching_spec [] 1 "u".toList (.error "capture failed".toList)
      (fun _ => .ok []) "capture failed".toList).1 rfl,
   (startTeaching_spec [] 1 "u".toList (.ok "shot".toList)
      (fun _ => .error "model failed".toList) "model failed".toList).2.1
     "shot".toList rfl rfl,
   (startTeaching_spec [] 1 "u".toList (.ok "shot".toList)
      (fun _ => .ok []) []).2.2 "shot".toList [] rfl rfl⟩

/-! ## Claim C9: URL hashing and the memory store -/

/-- The URL model on a well-shaped `scheme://host[path]?query` input:
query (and everything after `?`) is discarded, the empty path becomes
`/`. -/
theorem parseURLModel_build (scheme host path q : List Char)
    (hs1 : ¬scheme.isEmpty = true) (hs2 : ∀ c ∈ scheme, (c != ':') = true)
    (hh1 : ¬host.isEmpty = true)
    (hh2 : ∀ c ∈ host, (!(c == '/' || c == '?' || c == '#')) = true)
    (hp1 : path = [] ∨ ∃ p2, path = '/' :: p2)
    (hp2 : ∀ c ∈ path, (!(c == '?' || c == '#')) = true) :
    parseURLModel (scheme ++ "://".toList ++ host ++ path ++ '?' :: q) =
      some (scheme ++ [':'], host, if path.isEmpty then "/".toList else path) := by
  have hshape : scheme ++ "://".toList ++ host ++ path ++ '?' :: q =
      scheme ++ ':' :: '/' :: '/' :: (host ++ (path ++ '?' :: q)) := by
    simp [show "://".toList = [':', '/', '/'] from rfl, List.append_assoc]
  rw [hshape]
  unfold parseURLModel
  have htw1 : ((scheme ++ ':' :: '/' :: '/' :: (host ++ (path ++ '?' :: q))).takeWhile
      (fun c => c != ':')) = scheme := takeWhile_append_not hs2 (by decide)
  rw [htw1, if_neg hs1, List.drop_left]
  split
  next tail heq =>
    have h1 := List.tail_eq_of_cons_eq heq
    have h2 := List.tail_eq_of_cons_eq h1
    have h3 := List.tail_eq_of_cons_eq h2
    subst h3
    rcases hp1 with rfl | ⟨p2, rfl⟩
    · rw [show ([] : List Char) ++ '?' :: q = '?' :: q from rfl]
      have htw2 : ((host ++ '?' :: q).takeWhile
          (fun c => !(c == '/' || c == '?' || c == '#'))) = host :=
        takeWhile_append_not hh2 (by decide)
      rw [htw2, if_neg hh1, List.drop_left]
      have htw3 : (('?' :: q).takeWhile (fun c => !(c == '?' || c == '#'))) = [] := by
        simp [List.takeWhile_cons]
      rw [htw3]
    · rw [show ('/' :: p2) ++ '?' :: q = '/' :: (p2 ++ '?' :: q) from rfl]
      have htw2 : ((host ++ '/' :: (p2 ++ '?' :: q)).takeWhile
          (fun c => !(c == '/' || c == '?' || c == '#'))) = host :=
        takeWhile_append_not hh2 (by decide)
      rw [htw2, if_neg hh1, List.drop_left,
        show '/' :: (p2 ++ '?' :: q) = ('/' :: p2) ++ '?' :: q from rfl]
      have htw3 : ((('/' :: p2) ++ '?' :: q).takeWhile
          (fun c => !(c == '?' || c == '#'))) = '/' :: p2 :=
        takeWhile_append_not hp2 (by decide)
      rw [htw3]
  next hno =>
    exact absurd rfl (hno (host ++ (path ++ '?' :: q)))

theorem setA_setA_length {κ β : Type} [DecidableEq κ] (l : List (κ × β)) (k : κ) (v1 v2 : β) :
    (setA (setA l k v1) k v2).length = (setA l k v1).length := by
  induction l with
  | nil => simp [setA]
  | cons kv rest ih =>
    rcases kv with ⟨k0, v0⟩
    by_cases hk : k0 = k
    · simp [setA, hk]
    · simp only [setA, if_neg hk, List.length_cons]
      rw [ih]

/-- C9: the storage key hash depends only on the normalized
scheme + host + path — two URLs differing only in query (or fragment)
hash identically — with a raw-string fallback when URL parsing fails; and
saving two `PageMemory` values with the same `urlHash` stores them under
the same key, the second overwriting the first (lookup returns the second,
and the store does not grow). -/
theorem urlHash_spec :
    (∀ scheme host path q1 q2 : List Char,
      ¬scheme.isEmpty = true → (∀ c ∈ scheme, (c != ':') = true) →
      ¬host.isEmpty = true →
      (∀ c ∈ host, (!(c == '/' || c == '?' || c == '#')) = true) →
      (path = [] ∨ ∃ p2, path = '/' :: p2) →
      (∀ c ∈ path, (!(c == '?' || c == '#')) = true) →
      generateUrlHash (scheme ++ "://".toList ++ host ++ path ++ '?' :: q1) =
        generateUrlHash (scheme ++ "://".toList ++ host ++ path ++ '?' :: q2)) ∧
    (∀ url, parseURLModel url = none → generateUrlHash url = simpleHash url) ∧
    generateUrlHash "https://a.com/x?y=1".toList =
      generateUrlHash "https://a.com/x?y=2".toList ∧
    (∀ (store : List (List Char × PageMemory)) (m1 m2 : PageMemory),
      m1.urlHash = m2.urlHash →
      lookupA (savePageMemory (savePageMemory store m1) m2)
          (STORAGE_KEY_PREFIX ++ m2.urlHash) = some m2 ∧
      (savePageMemory (savePageMemory store m1) m2).length =
        (savePageMemory store m1).length) := by
  refine ⟨?_, ?_, ?_, ?_⟩
  · intro scheme host path q1 q2 hs1 hs2 hh1 hh2 hp1 hp2
    unfold generateUrlHash
    rw [parseURLModel_build scheme host path q1 hs1 hs2 hh1 hh2 hp1 hp2,
      parseURLModel_build scheme host path q2 hs1 hs2 hh1 hh2 hp1 hp2]
  · intro url h
    unfold generateUrlHash
    rw [h]
  · set_option maxRecDepth 8000 in decide
  · intro store m1 m2 hkey
    unfold savePageMemory
    rw [hkey]
    exact ⟨lookupA_setA _ _ _, setA_setA_length _ _ _ _⟩

/-- C9 witness: query-independence on a concrete URL shape, and the
save-overwrites-save behaviour on two memories sharing a `urlHash`. -/
theorem urlHash_spec_witness :
    generateUrlHash
        ("ftp".toList ++ "://".toList ++ "h.io".toList ++ "/a".toList ++ '?' :: "z=1".toList) =
      generateUrlHash
        ("ftp".toList ++ "://".toList ++ "h.io".toList ++ "/a".toList ++ '?' :: "z=2".toList) ∧
    lookupA (savePageMemory (savePageMemory [] (demoMemory 1)) (demoMemory 2))
        (STORAGE_KEY_PREFIX ++ (demoMemory 2).urlHash) = some (demoMemory 2) ∧
    (savePageMemory (savePageMemory [] (demoMemory 1)) (demoMemory 2)).length =
      (savePageMemory [] (demoMemory 1)).length :=
  ⟨urlHash_spec.1 "ftp".toList "h.io".toList "/a".toList "z=1".toList "z=2".toList
      (by decide) (by decide) (by decide) (by decide) (Or.inr ⟨"a".toList, rfl⟩) (by decide),
   (urlHash_spec.2.2.2 [] (demoMemory 1) (demoMemory 2) rfl).1,
   (urlHash_spec.2.2.2 [] (demoMemory 1) (demoMemory 2) rfl).2⟩

/-! ## Claim C2: the transport correlator -/

/-- C2: the correlator behaviour.  (1) An inbound `{id, success:true,
data:X}` for a pending id resolves it with `X` and removes the entry (the
id is no longer pending given the table holds distinct ids).  (2) A firing
timeout for a pending id removes it and rejects it with the timeout error;
(3) a message for an id that is no longer pending — e.g. one that already
timed out — has no effect.  (4) A disconnect rejects every currently
pending id with the disconnection error, clears the table, drops the port,
and subsequent sends fail until reinitialization.  (5) The timeout duration
is the configured value, defaulting to 30 000 ms. -/
theorem nativeTransport_spec {δ : Type} (s : NPState) (msgid : ℕ) (d : δ) (e : List Char) :
    (msgid ∈ s.pending → s.pending.Nodup →
      handleNativeMessage s (some msgid) true d e =
        ({ s with pending := s.pending.erase msgid }, some (msgid, .resolved d)) ∧
      msgid ∉ s.pending.erase msgid) ∧
    (msgid ∈ s.pending →
      timeoutFire δ s msgid =
        ({ s with pending := s.pending.erase msgid },
         some (msgid, .rejected "Native message timeout".toList))) ∧
    (msgid ∉ s.pending → handleNativeMessage s (some msgid) true d e = (s, none)) ∧
    ((onDisconnect δ s).1.pending = [] ∧
      (onDisconnect δ s).1.portConnected = false ∧
      (onDisconnect δ s).2 =
        s.pending.map (fun i => (i, .rejected "Native host disconnected".toList)) ∧
      sendNativeMessage (onDisconnect δ s).1 =
        .error "Native messaging host not connected".toList) ∧
    timeoutDuration none = 30000 ∧ (∀ t : ℕ, t ≠ 0 → timeoutDuration (some t) = t) := by
  refine ⟨?_, ?_, ?_, ⟨rfl, rfl, rfl, rfl⟩, rfl, ?_⟩
  · intro hmem hnodup
    constructor
    · unfold handleNativeMessage
      dsimp only
      rw [if_pos hmem, if_pos rfl]
    · intro habs
      exact ((List.Nodup.mem_erase_iff hnodup).mp habs).1 rfl
  · intro hmem
    unfold timeoutFire
    rw [if_pos hmem]
  · intro hmem
    unfold handleNativeMessage
    dsimp only
    rw [if_neg hmem]
  · intro t ht
    unfold timeoutDuration
    dsimp only
    rw [if_neg ht]

/-- C2 witness: resolution, timeout, late response, disconnect and the
default/configured timeout at a concrete correlator state. -/
theorem nativeTransport_spec_witness :
    (handleNativeMessage (⟨true, 3, [1, 2]⟩ : NPState) (some 1) true (42 : ℕ) [] =
      (⟨true, 3, [2]⟩, some (1, .resolved 42)) ∧ (1 : ℕ) ∉ ([1, 2] : List ℕ).erase 1) ∧
    timeoutFire ℕ ⟨true, 3, [1, 2]⟩ 2 =
      (⟨true, 3, [1]⟩, some (2, .rejected "Native message timeout".toList)) ∧
    handleNativeMessage (⟨true, 3, [1]⟩ : NPState) (some 2) true (7 : ℕ) [] =
      (⟨true, 3, [1]⟩, none) ∧
    sendNativeMessage (onDisconnect ℕ ⟨true, 3, [1, 2]⟩).1 =
      .error "Native messaging host not connected".toList ∧
    timeoutDuration (some 1) = 1 :=
  ⟨(nativeTransport_spec ⟨true, 3, [1, 2]⟩ 1 42 []).1 (by decide) (by decide),
   (nativeTransport_spec (⟨true, 3, [1, 2]⟩ : NPState) 2 (0 : ℕ) []).2.1 (by decide),
   (nativeTransport_spec ⟨true, 3, [1]⟩ 2 7 []).2.2.1 (by decide),
   (nativeTransport_spec (⟨true, 3, [1, 2]⟩ : NPState) 0 (0 : ℕ) []).2.2.2.1.2.2.2,
   (nativeTransport_spec (⟨true, 3, [1, 2]⟩ : NPState) 0 (0 : ℕ) []).2.2.2.2.2 1 (by decide)⟩

end Nanobrowser
